import Mathlib

/-!
Verification of an LLM orchestration substrate: shallow embedding of the
budget enforcer, provider router (circuit breaker, tier failover, streaming
failover), event bus, tool registry, and streaming supervisor, with theorems
settling the specification claims.

Monetary amounts and wall-clock instants are modelled as rationals; Python
floats are treated as exact arithmetic.  Fallible operations return an
explicit outcome next to the post-state, so that "no mutation on failure"
is expressible.  Network effects (provider attempts, health probes, tool
handlers, stream drivers) are supplied as explicit oracles describing the
behaviour of the external collaborator during one call.
-/

namespace Spec2Proof

/-! ### Association-list helpers

Python dictionaries keyed by provider or tool name are modelled as
association lists with first-match lookup and in-place overwrite. -/

def lookupB {α : Type} : List (String × α) → String → Option α
  | [], _ => none
  | (k2, v) :: rest, k => if k2 = k then some v else lookupB rest k

def setB {α : Type} : List (String × α) → String → α → List (String × α)
  | [], k, v => [(k, v)]
  | (k2, v2) :: rest, k, v =>
    if k2 = k then (k2, v) :: rest else (k2, v2) :: setB rest k v

/-! ## Budget enforcer (src/budget/enforcer.py)

`deduct_budget` runs a WATCH/MULTI/EXEC optimistic loop; in a sequential
execution the loop commits on the first pass, so a single call is the
conditional below.  The stored spend and limit for one (user, period) pair
form the state; a missing key reads as 0 (`float(... or 0)` in the source).
-/

structure BudgetState where
  spend : ℚ
  limit : ℚ
  deriving Repr, DecidableEq

inductive BudgetOutcome where
  | ok : BudgetOutcome
  | budgetExceeded : BudgetOutcome
  deriving Repr, DecidableEq

/-- `BudgetEnforcer.deduct_budget` for one user and period: if a limit is set
and the deduction would exceed it, raise `BudgetExceededError` without
touching the spend key; otherwise `incrbyfloat` the spend key by `cost`. -/
def deduct_budget (st : BudgetState) (cost : ℚ) : BudgetOutcome × BudgetState :=
  if st.limit > 0 ∧ st.spend + cost > st.limit then
    (.budgetExceeded, st)
  else
    (.ok, { st with spend := st.spend + cost })

/-- `BudgetEnforcer.check_budget`: true iff no limit is set or the deduction
would stay within the limit. -/
def check_budget (st : BudgetState) (cost : ℚ) : Bool :=
  if st.limit = 0 then true else decide (st.spend + cost ≤ st.limit)

/-! ## Provider router (src/providers/router.py) -/

inductive Tier where
  | LOCAL_FREE
  | CLOUD_CHEAP
  | VISION
  | PREMIUM
  | BATCH
  deriving Repr, DecidableEq

def Tier.toNat : Tier → ℕ
  | .LOCAL_FREE => 0
  | .CLOUD_CHEAP => 1
  | .VISION => 2
  | .PREMIUM => 3
  | .BATCH => 4

/-- `Tier(n)` for the `IntEnum`: defined on the five member values. -/
def Tier.fromNat : ℕ → Tier
  | 0 => .LOCAL_FREE
  | 1 => .CLOUD_CHEAP
  | 2 => .VISION
  | 3 => .PREMIUM
  | _ => .BATCH

structure ProviderConfig where
  tier : Tier
  priority : Int
  models : List String
  privacy_compatible : Bool
  health_check_interval : ℚ := 300
  circuit_breaker_threshold : ℕ := 3
  circuit_breaker_timeout : ℚ := 30
  deriving Repr, DecidableEq

structure CircuitBreakerState where
  failure_count : ℕ := 0
  last_failure_time : ℚ := 0
  is_open : Bool := false
  last_health_check : ℚ := 0
  is_healthy : Bool := true
  deriving Repr, DecidableEq

structure RouterState where
  providers : List (String × ProviderConfig)
  circuit_breakers : List (String × CircuitBreakerState)
  deriving Repr, DecidableEq

def getBreaker (rs : RouterState) (name : String) : CircuitBreakerState :=
  (lookupB rs.circuit_breakers name).getD {}

def setBreaker (rs : RouterState) (name : String) (b : CircuitBreakerState) : RouterState :=
  { rs with circuit_breakers := setB rs.circuit_breakers name b }

/-- `ProviderRouter.register`: store the config and a fresh breaker.
`health_check_interval`, threshold and cool-off keep their dataclass
defaults (300 s / 3 / 30 s); `register` never overrides them. -/
def registerProvider (rs : RouterState) (name : String) (tier : Tier)
    (models : List String) (priority : Int) (privacy_compatible : Bool) : RouterState :=
  { providers := setB rs.providers name
      { tier := tier, priority := priority, models := models,
        privacy_compatible := privacy_compatible },
    circuit_breakers := setB rs.circuit_breakers name {} }

def modelOkB (model : Option String) (cfg : ProviderConfig) : Bool :=
  match model with
  | none => true
  | some m => decide (m ∈ cfg.models)

/-- Stable insertion (after equal keys), so the fold below is Python's
stable `list.sort(key=priority)`. -/
def insertByPriority (x : String × Int) : List (String × Int) → List (String × Int)
  | [] => [x]
  | y :: ys => if x.2 < y.2 then x :: y :: ys else y :: insertByPriority x ys

def sortByPriority (l : List (String × Int)) : List (String × Int) :=
  l.foldl (fun acc x => insertByPriority x acc) []

/-- One iteration of the `_get_candidates` loop body: tier, model and
privacy filters, then the circuit-breaker gate, which closes the breaker
(resetting the failure count) when the cool-off has elapsed. -/
def candStep (now : ℚ) (tier : Tier) (model : Option String) (privacy_mode : Bool)
    (acc : RouterState × List (String × Int)) (p : String × ProviderConfig) :
    RouterState × List (String × Int) :=
  let name := p.1
  let config := p.2
  if config.tier ≠ tier then acc
  else if !(modelOkB model config) then acc
  else if privacy_mode && !config.privacy_compatible then acc
  else
    let b := getBreaker acc.1 name
    if b.is_open then
      if now - b.last_failure_time ≥ config.circuit_breaker_timeout then
        (setBreaker acc.1 name { b with is_open := false, failure_count := 0 },
          acc.2 ++ [(name, config.priority)])
      else acc
    else (acc.1, acc.2 ++ [(name, config.priority)])

/-- `ProviderRouter._get_candidates`: filter registered providers, apply the
breaker gate (mutating breakers whose cool-off elapsed), sort by ascending
priority. -/
def get_candidates (rs : RouterState) (now : ℚ) (tier : Tier) (model : Option String)
    (privacy_mode : Bool) : RouterState × List String :=
  let acc := rs.providers.foldl (candStep now tier model privacy_mode) (rs, [])
  (acc.1, (sortByPriority acc.2).map Prod.fst)

/-- `ProviderRouter._record_failure`: bump the consecutive-failure count,
stamp the failure time, open the breaker at the threshold. -/
def record_failure (rs : RouterState) (name : String) (now : ℚ) : RouterState :=
  match lookupB rs.providers name with
  | none => rs
  | some config =>
    let b := getBreaker rs name
    let b := { b with failure_count := b.failure_count + 1, last_failure_time := now }
    let b := if b.failure_count ≥ config.circuit_breaker_threshold then
        { b with is_open := true } else b
    setBreaker rs name b

/-- `ProviderRouter._record_success`: reset the failure count (the open flag
is not touched here). -/
def record_success (rs : RouterState) (name : String) : RouterState :=
  setBreaker rs name { getBreaker rs name with failure_count := 0 }

def tierSucc (t : Tier) : Tier := Tier.fromNat (t.toNat + 1)

/-- The fallback chain built at the top of `chat_completion`:
`[tier]`, then `Tier(tier + 1)` when `tier < PREMIUM`, then `PREMIUM`
unless already present. -/
def tiersToTry (tier : Tier) (enable_failover : Bool) : List Tier :=
  let ts := [tier]
  if enable_failover then
    let ts := if tier.toNat < Tier.PREMIUM.toNat then ts ++ [tierSucc tier] else ts
    if Tier.PREMIUM ∈ ts then ts else ts ++ [Tier.PREMIUM]
  else ts

/-- The tier chain as the specification words it: the requested tier, the
next-higher tier when the requested one is below `PREMIUM`, then `PREMIUM`
with the duplicate removed. -/
def specTierChain (t : Tier) : List Tier :=
  (([t] ++ (if t.toNat < Tier.PREMIUM.toNat then [tierSucc t] else [])) ++ [Tier.PREMIUM]).dedup

inductive ChatOutcome where
  | success (name : String) (resp : ℕ) (usedTier : Tier)
  | allFailed (lastError : Option String)
  deriving Repr, DecidableEq

/-- The inner candidate loop of `chat_completion` on one tier: skip unhealthy
candidates, return on the first successful completion, otherwise record the
failure, remember the last error and move on.  `health` and `attempt` are
the oracles for `_check_health` and the provider driver; the trace records
each failed attempt as (tier, provider, error). -/
def tryCandidates (health : String → Bool) (attempt : String → Except String ℕ)
    (now : ℚ) (t : Tier) :
    List String → RouterState → Option String → List (Tier × String × String) →
    RouterState × Option String × List (Tier × String × String) × Option (String × ℕ)
  | [], rs, lastError, trace => (rs, lastError, trace, none)
  | n :: rest, rs, lastError, trace =>
    if health n then
      match attempt n with
      | .ok v => (record_success rs n, lastError, trace, some (n, v))
      | .error e =>
        tryCandidates health attempt now t rest (record_failure rs n now) (some e)
          (trace ++ [(t, n, e)])
    else tryCandidates health attempt now t rest rs lastError trace

/-- The outer tier loop of `chat_completion`. -/
def tryTiers (health : String → Bool) (attempt : String → Except String ℕ)
    (now : ℚ) (model : String) (privacy_mode : Bool) :
    List Tier → RouterState → Option String → List (Tier × String × String) →
    RouterState × Option String × List (Tier × String × String) × Option (Tier × String × ℕ)
  | [], rs, lastError, trace => (rs, lastError, trace, none)
  | t :: rest, rs, lastError, trace =>
    let c := get_candidates rs now t (some model) privacy_mode
    let r := tryCandidates health attempt now t c.2 c.1 lastError trace
    match r.2.2.2 with
    | some nv => (r.1, r.2.1, r.2.2.1, some (t, nv.1, nv.2))
    | none => tryTiers health attempt now model privacy_mode rest r.1 r.2.1 r.2.2.1

/-- `ProviderRouter.chat_completion`: build the fallback chain, walk tiers
and candidates, return the first success or raise "all providers failed"
carrying the last error.  The response body is abstracted to a number; the
failover notification hook is an observation and carries no state. -/
def chat_completion (rs : RouterState) (now : ℚ) (health : String → Bool)
    (attempt : String → Except String ℕ) (tier : Tier) (model : String)
    (privacy_mode : Bool) (enable_failover : Bool) :
    RouterState × List (Tier × String × String) × ChatOutcome :=
  let r := tryTiers health attempt now model privacy_mode
    (tiersToTry tier enable_failover) rs none []
  match r.2.2.2 with
  | some tnv => (r.1, r.2.2.1, .success tnv.2.1 tnv.2.2 tnv.1)
  | none => (r.1, r.2.2.1, .allFailed r.2.1)

/-- The candidate loop of `stream_completion`.  `streamOf n` is the chunk
sequence provider `n` yields, paired with `some e` when the stream ends by
raising `e` (at any point, before or after chunks) and `none` when it
completes.  Every chunk a provider yields before failing has already been
forwarded to the caller, so the emitted list concatenates across attempts. -/
def tryStream (streamOf : String → List String × Option String) (health : String → Bool)
    (now : ℚ) : List String → RouterState → RouterState × List String × Bool
  | [], rs => (rs, [], false)
  | n :: rest, rs =>
    if health n then
      match (streamOf n).2 with
      | none => (record_success rs n, (streamOf n).1, true)
      | some _ =>
        let r := tryStream streamOf health now rest (record_failure rs n now)
        (r.1, (streamOf n).1 ++ r.2.1, r.2.2)
    else tryStream streamOf health now rest rs

structure StreamCallResult where
  rs : RouterState
  emitted : List String
  completed : Bool
  noCandidates : Bool
  deriving Repr, DecidableEq

/-- `ProviderRouter.stream_completion`: candidates for the single requested
tier; `ValueError` when there are none; otherwise the candidate loop.
`completed = false` with `noCandidates = false` is the terminal
"all providers failed for streaming" exception. -/
def stream_completion (rs : RouterState) (now : ℚ) (health : String → Bool)
    (streamOf : String → List String × Option String) (tier : Tier) (model : String)
    (privacy_mode : Bool) : StreamCallResult :=
  let c := get_candidates rs now tier (some model) privacy_mode
  if c.2 = [] then ⟨c.1, [], false, true⟩
  else
    let r := tryStream streamOf health now c.2 c.1
    ⟨r.1, r.2.1, r.2.2, false⟩

/-- Specification-side description for the amended streaming-failover claim:
the chunks the caller sees are those of each candidate up to and including
the first whose stream completes without error. -/
def chunksUntilComplete (streamOf : String → List String × Option String) :
    List String → List String
  | [] => []
  | n :: rest =>
    match (streamOf n).2 with
    | none => (streamOf n).1
    | some _ => (streamOf n).1 ++ chunksUntilComplete streamOf rest

/-! ## Event bus (src/agents/coordinator.py) -/

inductive MessageType where
  | TASK_ASSIGNMENT
  | TASK_RESULT
  | AGENT_REQUEST
  | AGENT_RESPONSE
  | SYSTEM_EVENT
  | ERROR
  deriving Repr, DecidableEq

structure Message where
  message_id : String
  type : MessageType
  sender : String
  recipient : Option String
  content : ℕ
  parent_id : Option String := none
  deriving Repr, DecidableEq

/-- One `subscribe` entry: an abstract callback identifier and the optional
kind filter (`None` in Python = no filter). -/
structure SubInfo where
  callback : ℕ
  message_types : Option (List MessageType)
  deriving Repr, DecidableEq

structure BusState where
  subscribers : List (String × List SubInfo)
  message_history : List Message
  max_history : ℕ
  deriving Repr, DecidableEq

/-- The filter test in `publish`: skip iff the filter list is truthy (set and
non-empty) and does not contain the message type. -/
def matchesFilter (m : Message) (s : SubInfo) : Bool :=
  match s.message_types with
  | none => true
  | some kinds => kinds.isEmpty || decide (m.type ∈ kinds)

/-- `deque(maxlen=max_history).append`. -/
def pushBounded (maxLen : ℕ) (h : List Message) (m : Message) : List Message :=
  let h2 := h ++ [m]
  if h2.length ≤ maxLen then h2 else h2.drop (h2.length - maxLen)

/-- `EventBus.publish`: append to history, determine recipients (direct or
broadcast over subscriber keys), skip the sender, fan out to every matching
callback.  The returned list is the callbacks invoked, in launch order;
callback exceptions are swallowed by `_safe_callback` and so do not appear
in the state. -/
def publish (bus : BusState) (m : Message) : BusState × List ℕ :=
  let history2 := pushBounded bus.max_history bus.message_history m
  let recipients : List String :=
    match m.recipient with
    | some r => [r]
    | none => bus.subscribers.map Prod.fst
  let invoked := recipients.foldl (fun acc rid =>
    if rid = m.sender then acc
    else
      match lookupB bus.subscribers rid with
      | none => acc
      | some subs => acc ++ (subs.filter (matchesFilter m)).map SubInfo.callback) []
  ({ bus with message_history := history2 }, invoked)

/-! ## Tool registry (src/tools/registry.py) -/

inductive PyVal where
  | vint (n : ℤ)
  | vstr (s : String)
  | vbool (b : Bool)
  | vnum (q : ℚ)
  deriving Repr, DecidableEq

/-- A parameter default in a Python signature: absent
(`inspect.Parameter.empty`), literally `None`, or a proper value. -/
inductive PyDefault where
  | empty
  | pynone
  | val (v : PyVal)
  deriving Repr, DecidableEq

inductive PyAnn where
  | noAnn
  | aInt
  | aBool
  | aFloat
  | aList
  | aDict
  | aOther
  deriving Repr, DecidableEq

structure SigParam where
  name : String
  ann : PyAnn
  default : PyDefault
  deriving Repr, DecidableEq

/-- The `annotation` → JSON-schema-type inference in `register_function`. -/
def inferType : PyAnn → String
  | .aInt => "integer"
  | .aBool => "boolean"
  | .aFloat => "number"
  | .aList => "array"
  | .aDict => "object"
  | _ => "string"

structure ToolParameter where
  name : String
  type : String
  description : String
  required : Bool
  default : Option PyVal
  enum : Option (List PyVal) := none
  deriving Repr, DecidableEq

/-- The parameter-extraction loop of `register_function`: `required` iff the
signature has no default; the stored default is the signature default with
`empty` replaced by `None` (so a declared default of `None` and no default
both store `None`). -/
def extractParameters (sig : List SigParam) : List ToolParameter :=
  sig.map fun p =>
    { name := p.name
      type := inferType p.ann
      description := "Parameter: " ++ p.name
      required := decide (p.default = PyDefault.empty)
      default := match p.default with
        | .val v => some v
        | _ => none }

inductive HandlerOutcome where
  | ok (v : PyVal)
  | raises (msg : String)
  deriving Repr, DecidableEq

/-- Behaviour of a tool handler during one call: coroutine or plain function,
wall-clock running time, and its return value or raised exception. -/
structure HandlerSpec where
  isAsync : Bool
  duration : ℚ
  outcome : HandlerOutcome
  deriving Repr, DecidableEq

structure Tool where
  name : String
  description : String
  parameters : List ToolParameter
  handler : HandlerSpec
  category : String := "general"
  requires_auth : Bool := false
  rate_limit : Option ℕ := none
  timeout : ℚ := 30
  deriving Repr, DecidableEq

/-- `register_function` applied to a function with signature `sig`. -/
def register_function (description : String) (category : String)
    (rate_limit : Option ℕ) (timeout : ℚ) (fname : String) (sig : List SigParam)
    (handler : HandlerSpec) : Tool :=
  { name := fname
    description := description
    parameters := extractParameters sig
    handler := handler
    category := category
    rate_limit := rate_limit
    timeout := timeout }

structure SchemaProperty where
  name : String
  type : String
  description : String
  enum : Option (List PyVal)
  default : Option PyVal
  deriving Repr, DecidableEq

structure ToolSchema where
  name : String
  description : String
  properties : List SchemaProperty
  required : List String
  deriving Repr, DecidableEq

/-- `ToolRegistry.get_tool_schema` on a present tool: a property per
parameter; the `enum` key is added when the parameter's enum is truthy, the
`default` key when the stored default `is not None`; `required` collects the
names of required parameters in order.  Key presence is `Option.isSome`. -/
def get_tool_schema (t : Tool) : ToolSchema :=
  { name := t.name
    description := t.description
    properties := t.parameters.map fun p =>
      { name := p.name
        type := p.type
        description := p.description
        enum := match p.enum with
          | some es => if es.isEmpty then none else some es
          | none => none
        default := p.default }
    required := (t.parameters.filter (fun p => p.required)).map fun p => p.name }

inductive ToolError where
  | notFound
  | rateLimited
  | missingParam (pname : String)
  | timedOut
  | raised (msg : String)
  deriving Repr, DecidableEq

structure ToolResult where
  success : Bool
  output : Option PyVal
  error : Option ToolError
  execution_time : ℚ
  deriving Repr, DecidableEq

structure RegistryState where
  tools : List (String × Tool)
  execution_counts : List (String × ℕ)
  last_execution : List (String × ℚ)
  deriving Repr, DecidableEq

/-- The rate-limit test in `execute`: `if tool.rate_limit:` (both `None` and
`0` are falsy) and then `now - last_execution.get(name, 0) < 60 / rate`. -/
def rateLimitHit (st : RegistryState) (now : ℚ) (name : String) (tool : Tool) : Bool :=
  match tool.rate_limit with
  | some r => r ≠ 0 && decide (now - (lookupB st.last_execution name).getD 0 < 60 / (r : ℚ))
  | none => false

/-- The validation loop: first required parameter missing from the call. -/
def firstMissing (params : List ToolParameter) (args : List (String × PyVal)) :
    Option String :=
  (params.find? fun p => p.required && (lookupB args p.name).isNone).map fun p => p.name

/-- `ToolRegistry.execute`.  Timing: validation is instantaneous, the handler
takes `handler.duration`; `asyncio.wait_for` bounds only coroutine handlers,
a plain function runs to completion.  Execution counts and the last-execution
stamp are written only on the success path, exactly as in the source. -/
def execute (st : RegistryState) (now : ℚ) (name : String)
    (args : List (String × PyVal)) : RegistryState × ToolResult :=
  match lookupB st.tools name with
  | none => (st, ⟨false, none, some .notFound, 0⟩)
  | some tool =>
    if rateLimitHit st now name tool then
      (st, ⟨false, none, some .rateLimited, 0⟩)
    else
      match firstMissing tool.parameters args with
      | some p => (st, ⟨false, none, some (.missingParam p), 0⟩)
      | none =>
        if tool.handler.isAsync && decide (tool.handler.duration > tool.timeout) then
          (st, ⟨false, none, some .timedOut, tool.timeout⟩)
        else
          match tool.handler.outcome with
          | .ok v =>
            let st2 := { st with
              execution_counts :=
                setB st.execution_counts name
                  ((lookupB st.execution_counts name).getD 0 + 1)
              last_execution := setB st.last_execution name (now + tool.handler.duration) }
            (st2, ⟨true, some v, none, tool.handler.duration⟩)
          | .raises e => (st, ⟨false, none, some (.raised e), tool.handler.duration⟩)

/-! ## Streaming supervisor (src/streaming/stream_manager.py) -/

inductive TerminationReason where
  | COMPLETE
  | EARLY_STOP
  | QUALITY_THRESHOLD
  | TIMEOUT
  | ERROR
  | USER_CANCELLED
  deriving Repr, DecidableEq

structure StreamChunk where
  content : String
  chunk_index : ℕ
  deriving Repr, DecidableEq

structure StreamResult where
  full_content : String
  chunks : List StreamChunk
  termination_reason : TerminationReason
  total_tokens : ℕ
  deriving Repr, DecidableEq

/-- How the router stream ends when the supervisor does not break first:
normal completion, an exception, or cancellation of the driving task. -/
inductive DriverEnd where
  | done
  | errored (e : String)
  | cancelled
  deriving Repr, DecidableEq

/-- One yielded chunk, stamped with the elapsed wall-clock time at which the
post-yield checks run. -/
structure DriverStep where
  content : String
  elapsed : ℚ
  deriving Repr, DecidableEq

structure DriverRun where
  steps : List DriverStep
  ending : DriverEnd
  deriving Repr, DecidableEq

def strContains (hay needle : String) : Bool :=
  hay.toList.tails.any fun t => needle.toList.isPrefixOf t

structure QualityEvaluator where
  min_length : ℕ := 50
  coherence_threshold : ℚ := 7/10
  check_interval : ℕ := 20
  deriving Repr, DecidableEq

def completionMarkers : List String :=
  ["\n\nTask complete", "\n\nDone", "```\n\nThe above", "\n\nIn summary"]

/-- `QualityEvaluator.should_terminate_early`: below the minimum length or
off the check interval, no; any completion marker (case-insensitive), yes;
last three newline-separated lines identical when there are more than three
lines, yes. -/
def should_terminate_early (q : QualityEvaluator) (accumulated : String)
    (token_count : ℕ) : Bool :=
  if accumulated.length < q.min_length then false
  else if token_count % q.check_interval ≠ 0 then false
  else if completionMarkers.any (fun mk => strContains accumulated.toLower mk.toLower)
    then true
  else
    let lines := accumulated.split fun c => c = '\n'
    if lines.length > 3 then
      decide ((lines.drop (lines.length - 3)).dedup.length = 1)
    else false

structure StreamConfig where
  timeout : ℚ := 60
  enable_quality_check : Bool := true
  quality : QualityEvaluator := {}
  deriving Repr, DecidableEq

/-- The post-yield checks of one loop iteration of `StreamManager.stream`,
in source order: stop sequences, then the quality heuristic, then the
wall-clock timeout.  `idx` is the chunk index after the increment, `elapsed`
the wall-clock time since the stream started. -/
def stepReason (cfg : StreamConfig) (stop_sequences : List String)
    (quality_check : Bool) (accumulated : String) (idx : ℕ) (elapsed : ℚ) :
    Option TerminationReason :=
  if stop_sequences.any (fun seq => strContains accumulated seq) then
    some .EARLY_STOP
  else if (quality_check && cfg.enable_quality_check) &&
      should_terminate_early cfg.quality accumulated idx then
    some .QUALITY_THRESHOLD
  else if decide (elapsed > cfg.timeout) then some .TIMEOUT
  else none

structure LoopOut where
  accumulated : String
  chunks : List StreamChunk
  idx : ℕ
  early : Option TerminationReason
  deriving Repr, DecidableEq

/-- The `async for` body of `StreamManager.stream`: accumulate the chunk,
record it, yield it, then run the three termination checks; `early = some r`
means the loop broke with reason `r` before exhausting the driver. -/
def streamLoop (cfg : StreamConfig) (stop_sequences : List String)
    (quality_check : Bool) :
    List DriverStep → String → List StreamChunk → ℕ → LoopOut
  | [], acc, chunks, idx => ⟨acc, chunks, idx, none⟩
  | s :: rest, acc, chunks, idx =>
    let acc2 := acc ++ s.content
    let chunks2 := chunks ++ [⟨s.content, idx⟩]
    let idx2 := idx + 1
    match stepReason cfg stop_sequences quality_check acc2 idx2 s.elapsed with
    | some r => ⟨acc2, chunks2, idx2, some r⟩
    | none => streamLoop cfg stop_sequences quality_check rest acc2 chunks2 idx2

/-- `StreamManager.stream`: run the loop over the driver; when it does not
break early the recorded reason comes from how the driver ended (`COMPLETE`,
`ERROR`, `USER_CANCELLED`).  Every chunk is yielded to the caller right
after being recorded, so the emitted sequence is the result's chunk list. -/
def stream (cfg : StreamConfig) (d : DriverRun) (stop_sequences : List String)
    (quality_check : Bool) : StreamResult × List StreamChunk :=
  let out := streamLoop cfg stop_sequences quality_check d.steps "" [] 0
  let reason := match out.early with
    | some r => r
    | none =>
      match d.ending with
      | .done => .COMPLETE
      | .errored _ => .ERROR
      | .cancelled => .USER_CANCELLED
  (⟨out.accumulated, out.chunks, reason, out.idx⟩, out.chunks)

/-- Left-fold concatenation, mirroring `accumulated_text += chunk`. -/
def concatAll (l : List String) : String := l.foldl (fun a b => a ++ b) ""

end Spec2Proof

/-! ## Helper lemmas -/

namespace Spec2Proof

theorem lookupB_setB_self {α : Type} (l : List (String × α)) (k : String) (v : α) :
    lookupB (setB l k v) k = some v := by
  induction l with
  | nil => simp [setB, lookupB]
  | cons hd tl ih =>
    obtain ⟨k2, v2⟩ := hd
    by_cases h : k2 = k
    · simp [setB, lookupB, h]
    · simp [setB, lookupB, h, ih]

theorem lookupB_setB_ne {α : Type} (l : List (String × α)) (k k2 : String) (v : α)
    (h : k2 ≠ k) : lookupB (setB l k v) k2 = lookupB l k2 := by
  induction l with
  | nil =>
    simp only [setB, lookupB]
    rw [if_neg fun hh => h hh.symm]
  | cons hd tl ih =>
    obtain ⟨k3, v3⟩ := hd
    by_cases h3 : k3 = k
    · subst h3
      simp only [setB, if_pos rfl, lookupB]
      rw [if_neg fun hh => h hh.symm, if_neg fun hh => h hh.symm]
    · simp only [setB, if_neg h3, lookupB]
      by_cases h4 : k3 = k2
      · rw [if_pos h4, if_pos h4]
      · rw [if_neg h4, if_neg h4, ih]

theorem pushBounded_getLast (maxLen : ℕ) (h : List Message) (m : Message)
    (hmax : 0 < maxLen) : (pushBounded maxLen h m).getLast? = some m := by
  simp only [pushBounded]
  split
  · simp
  · have hlen : (h ++ [m]).length - maxLen ≤ h.length := by
      simp only [List.length_append, List.length_cons, List.length_nil]
      omega
    rw [List.drop_append_of_le_length hlen]
    simp

theorem getBreaker_setBreaker_self (rs : RouterState) (n : String) (b : CircuitBreakerState) :
    getBreaker (setBreaker rs n b) n = b := by
  simp [getBreaker, setBreaker, lookupB_setB_self]

theorem getBreaker_setBreaker_ne (rs : RouterState) (n n2 : String) (b : CircuitBreakerState)
    (h : n2 ≠ n) : getBreaker (setBreaker rs n b) n2 = getBreaker rs n2 := by
  simp [getBreaker, setBreaker, lookupB_setB_ne _ _ _ _ h]

theorem setBreaker_providers (rs : RouterState) (n : String) (b : CircuitBreakerState) :
    (setBreaker rs n b).providers = rs.providers := rfl

end Spec2Proof

namespace Spec2Proof

/-- C1: For every user and period with a limit set (limit > 0), a
`deduct_budget` call that returns successfully leaves the stored spend at
most the limit; a call whose deduction would exceed the limit fails with the
budget-exceeded error and leaves the stored spend unchanged. -/
theorem budget_deduct_safety (st : BudgetState) (cost : ℚ) (hlim : 0 < st.limit) :
    ((deduct_budget st cost).1 = .ok → (deduct_budget st cost).2.spend ≤ st.limit) ∧
    (st.spend + cost > st.limit →
      (deduct_budget st cost).1 = .budgetExceeded ∧ (deduct_budget st cost).2 = st) := by
  constructor
  · intro hok
    unfold deduct_budget at *
    by_cases h : st.limit > 0 ∧ st.spend + cost > st.limit
    · simp [h] at hok
    · simp [h]
      rcases not_and_or.mp h with h1 | h2
      · exact absurd hlim h1
      · exact le_of_not_lt h2
  · intro hover
    unfold deduct_budget
    simp [hlim, hover]

/-- Witness for C1 at a concrete state: limit 1, spend 3/4, cost 1/2 is
rejected without mutation. -/
theorem budget_deduct_safety_witness :
    (deduct_budget ⟨3/4, 1⟩ (1/2)).1 = .budgetExceeded ∧
    (deduct_budget ⟨3/4, 1⟩ (1/2)).2 = (⟨3/4, 1⟩ : BudgetState) :=
  (budget_deduct_safety ⟨3/4, 1⟩ (1/2) (by norm_num)).2 (by norm_num)

/-- C4: For a published message with recipient `r` different from the
sender: if `r` is subscribed, the invoked callbacks are exactly `r`'s
callbacks whose kind filter matches the message, each once and in order (in
particular none of the sender's callbacks); if `r` is not subscribed, no
callback is invoked; in every case the message is appended to the bus
history. -/
theorem publish_directed_delivery (bus : BusState) (m : Message) (r : String)
    (hrec : m.recipient = some r) (hne : r ≠ m.sender) :
    (∀ subs, lookupB bus.subscribers r = some subs →
        (publish bus m).2 = (subs.filter (matchesFilter m)).map SubInfo.callback) ∧
    (lookupB bus.subscribers r = none → (publish bus m).2 = []) ∧
    (0 < bus.max_history → ((publish bus m).1.message_history).getLast? = some m) := by
  refine ⟨?_, ?_, ?_⟩
  · intro subs hsubs
    simp [publish, hrec, hne, hsubs]
  · intro hnone
    simp [publish, hrec, hne, hnone]
  · intro hmax
    exact pushBounded_getLast bus.max_history bus.message_history m hmax

/-- Concrete bus for the C4 witness: the recipient has a matching and a
filtered-out callback, the sender has a callback of its own. -/
def busW : BusState :=
  { subscribers := [("alice", [⟨1, none⟩, ⟨2, some [MessageType.ERROR]⟩]),
      ("bob", [⟨3, none⟩])]
    message_history := []
    max_history := 2 }

def msgW : Message :=
  { message_id := "m1"
    type := .TASK_RESULT
    sender := "bob"
    recipient := some "alice"
    content := 0 }

/-- Witness for C4: on `busW`, publishing `msgW` invokes exactly callback 1
(alice's unfiltered one) and appends the message to history. -/
theorem publish_directed_delivery_witness :
    (publish busW msgW).2 = [1] ∧
    (publish busW msgW).1.message_history.getLast? = some msgW := by
  constructor
  · rw [(publish_directed_delivery busW msgW ("alice") rfl (by decide)).1
      [⟨1, none⟩, ⟨2, some [MessageType.ERROR]⟩] (by decide)]
    decide
  · exact (publish_directed_delivery busW msgW ("alice") rfl (by decide)).2.2 (by decide)

end Spec2Proof

namespace Spec2Proof

/-- C5: For a tool with a per-minute rate limit `r > 0`, `execute` fails with
the rate-limit error exactly when the time since the tool's recorded last
execution is strictly below `60 / r` (so a call exactly `60 / r` after the
last one is not rate-limited), and the last-execution stamp is written only
by a successful execution, never by a failed or rate-limited call. -/
theorem execute_rate_limit_boundary (st : RegistryState) (now : ℚ) (name : String)
    (args : List (String × PyVal)) (tool : Tool) (r : ℕ)
    (htool : lookupB st.tools name = some tool)
    (hrate : tool.rate_limit = some r) (hr : 0 < r) :
    ((execute st now name args).2.error = some .rateLimited ↔
      now - (lookupB st.last_execution name).getD 0 < 60 / (r : ℚ)) ∧
    ((execute st now name args).2.success = false →
      (execute st now name args).1.last_execution = st.last_execution) ∧
    ((execute st now name args).2.success = true →
      lookupB (execute st now name args).1.last_execution name =
        some (now + tool.handler.duration)) := by
  have hrH : rateLimitHit st now name tool =
      decide (now - (lookupB st.last_execution name).getD 0 < 60 / (r : ℚ)) := by
    simp [rateLimitHit, hrate, Nat.pos_iff_ne_zero.mp hr]
  by_cases hc : now - (lookupB st.last_execution name).getD 0 < 60 / (r : ℚ)
  · refine ⟨?_, ?_, ?_⟩ <;> simp [execute, htool, hrH, hc]
  · cases hm : firstMissing tool.parameters args with
    | some p =>
      refine ⟨?_, ?_, ?_⟩ <;> simp [execute, htool, hrH, hc, hm]
    | none =>
      by_cases ht : tool.handler.isAsync && decide (tool.handler.duration > tool.timeout)
      · refine ⟨?_, ?_, ?_⟩ <;> simp [execute, htool, hrH, hc, hm, ht]
      · cases ho : tool.handler.outcome with
        | ok v =>
          refine ⟨?_, ?_, ?_⟩ <;>
            simp [execute, htool, hrH, hc, hm, ht, ho, lookupB_setB_self]
        | raises e =>
          refine ⟨?_, ?_, ?_⟩ <;> simp [execute, htool, hrH, hc, hm, ht, ho]

/-- Rate-limited tool for the C5 witness: limit 2/min, last executed at 10. -/
def rateTool : Tool :=
  { name := "search"
    description := "d"
    parameters := []
    handler := { isAsync := false, duration := 1, outcome := .ok (.vint 7) }
    rate_limit := some 2 }

def regRate : RegistryState :=
  { tools := [("search", rateTool)]
    execution_counts := []
    last_execution := [("search", 10)] }

/-- Witness for C5: at `now = 40` (exactly 30 s = 60/2 after the last run)
the call is not rate-limited and, succeeding, re-stamps the tool; the stamp
was `10`, so the rate window is indeed evaluated against it. -/
theorem execute_rate_limit_boundary_witness :
    ¬((execute regRate 40 ("search") []).2.error = some .rateLimited) ∧
    lookupB (execute regRate 40 ("search") []).1.last_execution ("search") = some 41 := by
  have h := execute_rate_limit_boundary regRate 40 ("search") [] rateTool 2 (by decide)
    (by decide) (by decide)
  constructor
  · intro habs
    have := h.1.mp habs
    norm_num [regRate, lookupB] at this
  · have hno : ¬((40 : ℚ) - 10 < 60 / 2) := by norm_num
    have hsucc : (execute regRate 40 ("search") []).2.success = true := by
      simp [execute, regRate, rateTool, lookupB, rateLimitHit, firstMissing, hno]
    have h41 := h.2.2 hsucc
    norm_num [rateTool] at h41
    exact h41

/-- Synchronous 5-second tool with a 1-second timeout (claim C6's scenario
with a plain-function handler). -/
def slowSyncTool : Tool :=
  { name := "slow"
    description := "d"
    parameters := []
    handler := { isAsync := false, duration := 5, outcome := .ok (.vint 1) }
    timeout := 1 }

def regSync : RegistryState :=
  { tools := [("slow", slowSyncTool)]
    execution_counts := []
    last_execution := [] }

/-- C6 counterexample: the claim asserts every tool's handler runs under the
tool's wall-clock timeout, but `asyncio.wait_for` wraps only coroutine
handlers; a synchronous handler that runs 5 s against a 1 s timeout returns
success with execution_time 5, not a timeout failure. -/
theorem execute_sync_no_timeout_cex :
    slowSyncTool.handler.isAsync = false ∧
    slowSyncTool.timeout = 1 ∧ slowSyncTool.handler.duration = 5 ∧
    (execute regSync 0 ("slow") []).2.success = true ∧
    (execute regSync 0 ("slow") []).2.error = none ∧
    (execute regSync 0 ("slow") []).2.execution_time = 5 := by
  refine ⟨rfl, rfl, rfl, ?_, ?_, ?_⟩ <;> decide

/-- C6 amended: for an asynchronous handler, running past the timeout yields
a failed `ToolResult` with the timeout error and execution_time equal to the
timeout; a handler that raises (any synchronous handler, or an asynchronous
one within the timeout) yields a failed result carrying the exception
message. -/
theorem execute_timeout_amended (st : RegistryState) (now : ℚ) (name : String)
    (args : List (String × PyVal)) (tool : Tool)
    (htool : lookupB st.tools name = some tool)
    (hrl : rateLimitHit st now name tool = false)
    (hparams : firstMissing tool.parameters args = none) :
    (tool.handler.isAsync = true → tool.handler.duration > tool.timeout →
      (execute st now name args).2 = ⟨false, none, some .timedOut, tool.timeout⟩) ∧
    (∀ e, tool.handler.outcome = .raises e →
      (tool.handler.isAsync = false ∨ tool.handler.duration ≤ tool.timeout) →
      (execute st now name args).2 =
        ⟨false, none, some (.raised e), tool.handler.duration⟩) := by
  constructor
  · intro hasync hdur
    simp [execute, htool, hrl, hparams, hasync, hdur]
  · intro e he hcase
    have hgate : (tool.handler.isAsync && decide (tool.handler.duration > tool.timeout))
        = false := by
      rcases hcase with hs | hle
      · simp [hs]
      · simp [not_lt_of_le hle]
    simp [execute, htool, hrl, hparams, hgate, he]

/-- Asynchronous 5-second tool with a 1-second timeout (the spec's S6
scenario). -/
def slowAsyncTool : Tool :=
  { name := "slow"
    description := "d"
    parameters := []
    handler := { isAsync := true, duration := 5, outcome := .ok (.vint 1) }
    timeout := 1 }

def regAsync : RegistryState :=
  { tools := [("slow", slowAsyncTool)]
    execution_counts := []
    last_execution := [] }

/-- Witness for the amended C6 on the S6 scenario: the async 5 s handler
against the 1 s timeout fails with the timeout error at execution_time 1. -/
theorem execute_timeout_amended_witness :
    (execute regAsync 0 ("slow") []).2 =
      ⟨false, none, some ToolError.timedOut, 1⟩ :=
  (execute_timeout_amended regAsync 0 ("slow") [] slowAsyncTool (by decide) (by decide)
    (by decide)).1 rfl (by decide)

end Spec2Proof

namespace Spec2Proof

/-- C10: For a tool registered via `register_function`, the schema marks a
parameter required exactly when its function parameter has no default in the
signature, and carries a `default` entry exactly when the declared default
is a value other than `None`; hence a parameter whose declared default is
`None` appears with neither. -/
theorem schema_required_default (d c : String) (rl : Option ℕ) (tmo : ℚ)
    (fname : String) (sig : List SigParam) (hs : HandlerSpec)
    (hnodup : (sig.map SigParam.name).Nodup) (p : SigParam) (hp : p ∈ sig) :
    (p.name ∈ (get_tool_schema (register_function d c rl tmo fname sig hs)).required ↔
      p.default = PyDefault.empty) ∧
    ((∃ sp ∈ (get_tool_schema (register_function d c rl tmo fname sig hs)).properties,
        sp.name = p.name ∧ sp.default.isSome = true) ↔
      ∃ v, p.default = PyDefault.val v) := by
  have hinj : ∀ q ∈ sig, q.name = p.name → q = p := fun q hq he =>
    List.inj_on_of_nodup_map hnodup hq hp he
  constructor
  · constructor
    · intro hmem
      simp only [get_tool_schema, register_function, extractParameters, List.mem_map,
        List.mem_filter] at hmem
      obtain ⟨tp, ⟨hmm, hreq⟩, hname⟩ := hmem
      obtain ⟨q, hq, rfl⟩ := hmm
      have hqp : q = p := hinj q hq hname
      subst hqp
      simpa using hreq
    · intro hd
      simp only [get_tool_schema, register_function, extractParameters, List.mem_map,
        List.mem_filter]
      exact ⟨_, ⟨⟨p, hp, rfl⟩, by simp [hd]⟩, rfl⟩
  · constructor
    · intro hex
      simp only [get_tool_schema, register_function, extractParameters, List.mem_map]
        at hex
      obtain ⟨sp, ⟨tp, ⟨q, hq, rfl⟩, rfl⟩, hname, hsome⟩ := hex
      have hqp : q = p := hinj q hq hname
      subst hqp
      rcases hdq : q.default with _ | _ | v
      · simp [hdq] at hsome
      · simp [hdq] at hsome
      · exact ⟨v, rfl⟩
    · intro hex
      obtain ⟨v, hv⟩ := hex
      simp only [get_tool_schema, register_function, extractParameters, List.mem_map]
      exact ⟨_, ⟨_, ⟨p, hp, rfl⟩, rfl⟩, rfl, by simp [hv]⟩

/-- Signature with a mandatory parameter, an optional one defaulting to
`None`, and an optional one with a proper default. -/
def sigW : List SigParam :=
  [⟨"a", .aInt, .empty⟩, ⟨"b", .noAnn, .pynone⟩, ⟨"c", .aFloat, .val (.vnum (1/2))⟩]

def toolW : Tool :=
  register_function ("d") ("general") none 30 ("f") sigW ⟨false, 0, .ok (.vint 0)⟩

/-- Witness for C10 at the `None`-defaulted parameter of `sigW`: it is
neither listed as required nor given a default entry in the schema. -/
theorem schema_required_default_witness :
    ¬(("b") ∈ (get_tool_schema toolW).required) ∧
    ¬(∃ sp ∈ (get_tool_schema toolW).properties, sp.name = ("b") ∧
        sp.default.isSome = true) := by
  have h := schema_required_default ("d") ("general") none 30 ("f") sigW
    ⟨false, 0, .ok (.vint 0)⟩ (by decide) ⟨("b"), .noAnn, .pynone⟩ (by decide)
  constructor
  · intro hmem
    have := h.1.mp hmem
    simp at this
  · intro hex
    obtain ⟨v, hv⟩ := h.2.mp hex
    cases hv

end Spec2Proof

namespace Spec2Proof

/-- Driver for the C7 counterexample: a single chunk arriving after the
wall-clock timeout and containing the stop sequence. -/
def cexDriver : DriverRun := { steps := [⟨"X", 100⟩], ending := .done }

/-- C7 counterexample: at the only step both the stop-sequence condition
(the sequence "X" occurs in the accumulated text) and the wall-clock
timeout (elapsed 100 > timeout 60) hold, yet the source checks stop
sequences first and records EARLY_STOP, where the claim requires TIMEOUT
to take precedence. -/
theorem stream_precedence_cex :
    strContains ("X") ("X") = true ∧
    ((100 : ℚ) > ({} : StreamConfig).timeout) ∧
    (stream {} cexDriver ["X"] true).1.termination_reason =
      TerminationReason.EARLY_STOP ∧
    (stream {} cexDriver ["X"] true).1.termination_reason ≠
      TerminationReason.TIMEOUT := by
  refine ⟨by decide, by norm_num, ?_, ?_⟩ <;> decide

/-- C7 amended: within one streamed step the source checks the termination
conditions in the order stop-sequence, quality-heuristic, wall-clock
timeout, and records the first that holds — so a simultaneous timeout and
stop-sequence records the stop-sequence reason, not timeout.  A decision
taken at the first step is exactly what the stream result records
(cancellation and error are not step conditions; they come from the driver
when no step condition fired). -/
theorem stream_step_precedence_amended (cfg : StreamConfig) (stops : List String)
    (qc : Bool) (acc : String) (idx : ℕ) (t : ℚ) :
    ((stops.any fun seq => strContains acc seq) = true →
      stepReason cfg stops qc acc idx t = some .EARLY_STOP) ∧
    ((stops.any fun seq => strContains acc seq) = false →
      ((qc && cfg.enable_quality_check) &&
        should_terminate_early cfg.quality acc idx) = true →
      stepReason cfg stops qc acc idx t = some .QUALITY_THRESHOLD) ∧
    ((stops.any fun seq => strContains acc seq) = false →
      ((qc && cfg.enable_quality_check) &&
        should_terminate_early cfg.quality acc idx) = false →
      t > cfg.timeout →
      stepReason cfg stops qc acc idx t = some .TIMEOUT) ∧
    (∀ d s rest r, d.steps = s :: rest →
      stepReason cfg stops qc s.content 1 s.elapsed = some r →
      (stream cfg d stops qc).1.termination_reason = r) := by
  refine ⟨?_, ?_, ?_, ?_⟩
  · intro hstop
    simp [stepReason, hstop]
  · intro hstop hqual
    simp [stepReason, hstop, hqual]
  · intro hstop hqual ht
    simp [stepReason, hstop, hqual, ht]
  · intro d s rest r hsteps hstep
    have hs2 : stepReason cfg stops qc (("" : String) ++ s.content) 1 s.elapsed
        = some r := hstep
    simp only [stream, hsteps, streamLoop, hs2]

/-- Witness for the amended C7 on the counterexample scenario: with the stop
sequence present, the step decision is EARLY_STOP (whatever the clock says),
and the stream records it. -/
theorem stream_step_precedence_amended_witness :
    stepReason {} ["X"] true ("X") 1 100 = some TerminationReason.EARLY_STOP ∧
    (stream {} cexDriver ["X"] true).1.termination_reason =
      TerminationReason.EARLY_STOP := by
  constructor
  · exact (stream_step_precedence_amended {} ["X"] true ("X") 1 100).1 (by decide)
  · exact (stream_step_precedence_amended {} ["X"] true ("X") 1 100).2.2.2
      cexDriver ⟨"X", 100⟩ [] TerminationReason.EARLY_STOP rfl
      ((stream_step_precedence_amended {} ["X"] true ("X") 1 100).1 (by decide))

theorem concatAll_append_single (l : List String) (x : String) :
    concatAll (l ++ [x]) = concatAll l ++ x := by
  simp [concatAll, List.foldl_append]

/-- Loop invariant for `streamLoop`: the accumulated text is the
concatenation of the recorded chunks, the running index is the chunk count,
the chunk indices are `0..idx-1`, and the recorded contents extend the
initial ones by a prefix of the driver's yields. -/
theorem streamLoop_spec (cfg : StreamConfig) (stops : List String) (qc : Bool)
    (steps : List DriverStep) (acc : String) (chunks : List StreamChunk) (idx : ℕ)
    (hacc : acc = concatAll (chunks.map StreamChunk.content))
    (hidx : idx = chunks.length)
    (hrange : chunks.map StreamChunk.chunk_index = List.range idx) :
    (streamLoop cfg stops qc steps acc chunks idx).accumulated =
      concatAll ((streamLoop cfg stops qc steps acc chunks idx).chunks.map
        StreamChunk.content) ∧
    (streamLoop cfg stops qc steps acc chunks idx).idx =
      (streamLoop cfg stops qc steps acc chunks idx).chunks.length ∧
    (streamLoop cfg stops qc steps acc chunks idx).chunks.map StreamChunk.chunk_index =
      List.range (streamLoop cfg stops qc steps acc chunks idx).idx ∧
    ∃ k, (streamLoop cfg stops qc steps acc chunks idx).chunks.map StreamChunk.content =
      chunks.map StreamChunk.content ++ (steps.map DriverStep.content).take k := by
  induction steps generalizing acc chunks idx with
  | nil =>
    simp only [streamLoop]
    exact ⟨hacc, hidx, by simpa [hidx] using hrange, ⟨0, by simp⟩⟩
  | cons s rest ih =>
    have hacc2 : acc ++ s.content =
        concatAll ((chunks ++ [StreamChunk.mk s.content idx]).map StreamChunk.content) := by
      simp only [List.map_append, List.map_cons, List.map_nil]
      rw [concatAll_append_single, hacc]
    have hidx2 : idx + 1 = (chunks ++ [StreamChunk.mk s.content idx]).length := by
      simp [hidx]
    have hrange2 : (chunks ++ [StreamChunk.mk s.content idx]).map StreamChunk.chunk_index =
        List.range (idx + 1) := by
      rw [List.map_append, hrange, List.range_succ]
      rfl
    cases hstep : stepReason cfg stops qc (acc ++ s.content) (idx + 1) s.elapsed with
    | some r =>
      simp only [streamLoop, hstep]
      exact ⟨hacc2, hidx2, hrange2, ⟨1, by simp [List.map_append]⟩⟩
    | none =>
      have hrec := ih (acc ++ s.content) (chunks ++ [StreamChunk.mk s.content idx])
        (idx + 1) hacc2 hidx2 hrange2
      simp only [streamLoop, hstep]
      refine ⟨hrec.1, hrec.2.1, hrec.2.2.1, ?_⟩
      obtain ⟨k, hk⟩ := hrec.2.2.2
      refine ⟨k + 1, ?_⟩
      rw [hk]
      simp [List.take_succ_cons, List.map_append]

/-- C9: The streaming supervisor delivers chunks to the caller exactly as
recorded (same list, in the driver's yield order as a prefix of the driver's
yields) with consecutive indices `0..n-1`, and the terminal result's
`full_content` is the concatenation of the chunk contents in order. -/
theorem stream_order_concat (cfg : StreamConfig) (d : DriverRun)
    (stops : List String) (qc : Bool) :
    (stream cfg d stops qc).2 = (stream cfg d stops qc).1.chunks ∧
    (stream cfg d stops qc).1.chunks.map StreamChunk.chunk_index =
      List.range (stream cfg d stops qc).1.chunks.length ∧
    (∃ k, (stream cfg d stops qc).1.chunks.map StreamChunk.content =
      (d.steps.map DriverStep.content).take k) ∧
    (stream cfg d stops qc).1.full_content =
      concatAll ((stream cfg d stops qc).1.chunks.map StreamChunk.content) := by
  have h := streamLoop_spec cfg stops qc d.steps ("" : String) [] 0
    (by simp [concatAll]) rfl (by simp)
  refine ⟨rfl, ?_, ?_, ?_⟩
  · have h1 := h.2.1
    have h2 := h.2.2.1
    simp only [stream]
    rw [h2, h1]
  · obtain ⟨k, hk⟩ := h.2.2.2
    exact ⟨k, by simpa using hk⟩
  · exact h.1

end Spec2Proof

namespace Spec2Proof

theorem mem_insertByPriority (x y : String × Int) (l : List (String × Int)) :
    y ∈ insertByPriority x l ↔ y = x ∨ y ∈ l := by
  induction l with
  | nil => simp [insertByPriority]
  | cons hd tl ih =>
    simp only [insertByPriority]
    split
    · simp [List.mem_cons]
    · simp only [List.mem_cons, ih]
      tauto

theorem mem_sortByPriority (y : String × Int) (l : List (String × Int)) :
    y ∈ sortByPriority l ↔ y ∈ l := by
  suffices h : ∀ acc, (y ∈ l.foldl (fun acc x => insertByPriority x acc) acc ↔
      y ∈ acc ∨ y ∈ l) by
    simpa [sortByPriority] using h []
  induction l with
  | nil => intro acc; simp
  | cons hd tl ih =>
    intro acc
    simp only [List.foldl_cons, ih, mem_insertByPriority, List.mem_cons]
    tauto

theorem candStep_providers (now : ℚ) (t : Tier) (model : Option String) (priv : Bool)
    (acc : RouterState × List (String × Int)) (p : String × ProviderConfig) :
    (candStep now t model priv acc p).1.providers = acc.1.providers := by
  simp only [candStep]
  split_ifs <;> rfl

theorem candStep_breaker_ne (now : ℚ) (t : Tier) (model : Option String) (priv : Bool)
    (acc : RouterState × List (String × Int)) (n : String) (c : ProviderConfig)
    (name : String) (hne : name ≠ n) :
    getBreaker (candStep now t model priv acc (n, c)).1 name = getBreaker acc.1 name := by
  simp only [candStep]
  split_ifs <;> first
    | rfl
    | exact getBreaker_setBreaker_ne acc.1 n name _ hne

theorem candStep_cands (now : ℚ) (t : Tier) (model : Option String) (priv : Bool)
    (acc : RouterState × List (String × Int)) (n : String) (c : ProviderConfig) :
    (candStep now t model priv acc (n, c)).2 = acc.2 ∨
    (candStep now t model priv acc (n, c)).2 = acc.2 ++ [(n, c.priority)] := by
  simp only [candStep]
  split_ifs <;> simp

/-- While a provider's breaker is open and its cool-off has not elapsed, the
candidate fold neither touches its breaker nor lists it. -/
theorem candFold_keeps_blocked (now : ℚ) (t : Tier) (model : Option String)
    (priv : Bool) (name : String) (cfg : ProviderConfig) (b : CircuitBreakerState)
    (hopen : b.is_open = true)
    (hcool : ¬(now - b.last_failure_time ≥ cfg.circuit_breaker_timeout)) :
    ∀ (l : List (String × ProviderConfig)), (∀ c, (name, c) ∈ l → c = cfg) →
      ∀ (rsA : RouterState) (cands : List (String × Int)),
        getBreaker rsA name = b → name ∉ cands.map Prod.fst →
        getBreaker (l.foldl (candStep now t model priv) (rsA, cands)).1 name = b ∧
        name ∉ (l.foldl (candStep now t model priv) (rsA, cands)).2.map Prod.fst := by
  intro l
  induction l with
  | nil =>
    intro _ rsA cands hbr hnc
    exact ⟨hbr, hnc⟩
  | cons p tl ih =>
    intro hl rsA cands hbr hnc
    obtain ⟨n, c⟩ := p
    have hl2 : ∀ c2, (name, c2) ∈ tl → c2 = cfg :=
      fun c2 h => hl c2 (List.mem_cons_of_mem _ h)
    rw [List.foldl_cons]
    by_cases hn : n = name
    · have hc : c = cfg := hl c (by rw [hn]; exact List.mem_cons_self _ _)
      have hbrn : getBreaker rsA n = b := by rw [hn]; exact hbr
      have hstep : candStep now t model priv (rsA, cands) (n, c) = (rsA, cands) := by
        simp only [candStep, hbrn, hopen]
        split_ifs with h1 h2 h3 h4
        · rfl
        · rfl
        · rfl
        · exact absurd h4 (by rw [hc]; exact hcool)
        · rfl
      rw [hstep]
      exact ih hl2 rsA cands hbr hnc
    · have hbr2 : getBreaker (candStep now t model priv (rsA, cands) (n, c)).1 name = b := by
        rw [candStep_breaker_ne now t model priv (rsA, cands) n c name
          (fun h => hn h.symm)]
        exact hbr
      have hnc2 : name ∉ (candStep now t model priv (rsA, cands) (n, c)).2.map Prod.fst := by
        rcases candStep_cands now t model priv (rsA, cands) n c with h | h
        · rw [h]; exact hnc
        · rw [h]
          simp only [List.map_append, List.mem_append]
          rintro (h2 | h2)
          · exact hnc h2
          · simp at h2
            exact hn h2.symm
      exact ih hl2 (candStep now t model priv (rsA, cands) (n, c)).1
        (candStep now t model priv (rsA, cands) (n, c)).2 hbr2 hnc2

/-- When a provider's breaker is closed, one candidate step never changes
it, whichever provider the step examines. -/
theorem candStep_breaker_closed (now : ℚ) (t : Tier) (model : Option String)
    (priv : Bool) (acc : RouterState × List (String × Int)) (n : String)
    (c : ProviderConfig) (name : String)
    (hclosed : (getBreaker acc.1 name).is_open = false) :
    getBreaker (candStep now t model priv acc (n, c)).1 name = getBreaker acc.1 name := by
  by_cases hn : n = name
  · simp only [candStep]
    split_ifs with h1 h2 h3 h4 h5 <;> try rfl
    rw [hn] at h4
    exact absurd h4 (by simp [hclosed])
  · exact candStep_breaker_ne now t model priv acc n c name (fun h => hn h.symm)

/-- Once a provider's breaker is closed, the candidate fold keeps it as is
and only ever adds candidates. -/
theorem candFold_closed_stays (now : ℚ) (t : Tier) (model : Option String)
    (priv : Bool) (name : String) (bC : CircuitBreakerState)
    (hclosed : bC.is_open = false) :
    ∀ (l : List (String × ProviderConfig)) (rsA : RouterState)
      (cands : List (String × Int)),
      getBreaker rsA name = bC →
      getBreaker (l.foldl (candStep now t model priv) (rsA, cands)).1 name = bC ∧
      (name ∈ cands.map Prod.fst →
        name ∈ (l.foldl (candStep now t model priv) (rsA, cands)).2.map Prod.fst) := by
  intro l
  induction l with
  | nil =>
    intro rsA cands hbr
    exact ⟨hbr, fun h => h⟩
  | cons p tl ih =>
    intro rsA cands hbr
    obtain ⟨n, c⟩ := p
    rw [List.foldl_cons]
    have hbr2 : getBreaker (candStep now t model priv (rsA, cands) (n, c)).1 name = bC := by
      rw [candStep_breaker_closed now t model priv (rsA, cands) n c name
        (by rw [hbr]; exact hclosed)]
      exact hbr
    have hsub : cands.map Prod.fst ⊆
        (candStep now t model priv (rsA, cands) (n, c)).2.map Prod.fst := by
      rcases candStep_cands now t model priv (rsA, cands) n c with h | h <;>
        rw [h] <;> simp [List.subset_append_left]
    obtain ⟨ha, hb⟩ := ih (candStep now t model priv (rsA, cands) (n, c)).1
      (candStep now t model priv (rsA, cands) (n, c)).2 hbr2
    exact ⟨ha, fun h => hb (hsub h)⟩

end Spec2Proof

namespace Spec2Proof

theorem lookupB_eq_of_mem_uniq {α : Type} (l : List (String × α)) (k : String) (v : α)
    (hmem : (k, v) ∈ l) (huniq : ∀ v2, (k, v2) ∈ l → v2 = v) :
    lookupB l k = some v := by
  induction l with
  | nil => cases hmem
  | cons hd tl ih =>
    obtain ⟨k2, v2⟩ := hd
    simp only [lookupB]
    by_cases hk : k2 = k
    · rw [if_pos hk]
      have hm2 : (k, v2) ∈ (k2, v2) :: tl := by
        rw [hk]
        exact List.mem_cons_self _ _
      rw [huniq v2 hm2]
    · rw [if_neg hk]
      apply ih
      · rcases List.mem_cons.mp hmem with h | h
        · injection h with h1 h2
          exact absurd h1.symm hk
        · exact h
      · intro v3 h
        exact huniq v3 (List.mem_cons_of_mem _ h)

theorem candFold_providers (now : ℚ) (t : Tier) (model : Option String) (priv : Bool) :
    ∀ (l : List (String × ProviderConfig)) (acc : RouterState × List (String × Int)),
      (l.foldl (candStep now t model priv) acc).1.providers = acc.1.providers := by
  intro l
  induction l with
  | nil => intro acc; rfl
  | cons p tl ih =>
    intro acc
    rw [List.foldl_cons, ih]
    exact candStep_providers now t model priv acc p

/-- When an open breaker's cool-off has elapsed and the provider passes the
tier, model and privacy filters, the candidate fold closes the breaker
(resetting its count) and lists the provider. -/
theorem candFold_reopens (now : ℚ) (model : Option String) (priv : Bool)
    (name : String) (cfg : ProviderConfig) (b : CircuitBreakerState)
    (hopen : b.is_open = true)
    (hcool : now - b.last_failure_time ≥ cfg.circuit_breaker_timeout)
    (hmodel : modelOkB model cfg = true)
    (hpriv : (priv && !cfg.privacy_compatible) = false) :
    ∀ (l : List (String × ProviderConfig)), (∀ c, (name, c) ∈ l → c = cfg) →
      (name, cfg) ∈ l →
      ∀ (rsA : RouterState) (cands : List (String × Int)),
        getBreaker rsA name = b →
        getBreaker (l.foldl (candStep now cfg.tier model priv) (rsA, cands)).1 name =
          { b with is_open := false, failure_count := 0 } ∧
        name ∈ (l.foldl (candStep now cfg.tier model priv) (rsA, cands)).2.map Prod.fst := by
  intro l
  induction l with
  | nil =>
    intro _ hmeml
    cases hmeml
  | cons p tl ih =>
    intro hl hmeml rsA cands hbr
    obtain ⟨n, c⟩ := p
    have hl2 : ∀ c2, (name, c2) ∈ tl → c2 = cfg :=
      fun c2 h => hl c2 (List.mem_cons_of_mem _ h)
    rw [List.foldl_cons]
    by_cases hn : n = name
    · have hc : c = cfg := hl c (by rw [hn]; exact List.mem_cons_self _ _)
      have hbrn : getBreaker rsA n = b := by rw [hn]; exact hbr
      have hstep : candStep now cfg.tier model priv (rsA, cands) (n, c) =
          (setBreaker rsA n { b with is_open := false, failure_count := 0 },
            cands ++ [(n, cfg.priority)]) := by
        rw [hc]
        simp [candStep, hbrn, hopen, hmodel, hpriv, hcool]
      rw [hstep]
      have hbr2 : getBreaker
          (setBreaker rsA n { b with is_open := false, failure_count := 0 }) name =
          { b with is_open := false, failure_count := 0 } := by
        rw [hn]
        exact getBreaker_setBreaker_self rsA name _
      obtain ⟨ha, hb⟩ := candFold_closed_stays now cfg.tier model priv name
        { b with is_open := false, failure_count := 0 } rfl tl
        (setBreaker rsA n { b with is_open := false, failure_count := 0 })
        (cands ++ [(n, cfg.priority)]) hbr2
      refine ⟨ha, hb ?_⟩
      rw [hn]
      simp
    · have hmem2 : (name, cfg) ∈ tl := by
        rcases List.mem_cons.mp hmeml with h | h
        · injection h with h1 h2
          exact absurd h1.symm hn
        · exact h
      have hbr2 : getBreaker (candStep now cfg.tier model priv (rsA, cands) (n, c)).1
          name = b := by
        rw [candStep_breaker_ne now cfg.tier model priv (rsA, cands) n c name
          (fun h => hn h.symm)]
        exact hbr
      exact ih hl2 hmem2 (candStep now cfg.tier model priv (rsA, cands) (n, c)).1
        (candStep now cfg.tier model priv (rsA, cands) (n, c)).2 hbr2

end Spec2Proof

namespace Spec2Proof

/-- C2 amended: once a provider's breaker is open it is never offered as a
candidate until `now - last_failure_time ≥ T`; but when the cool-off has
elapsed, `_get_candidates` itself closes the breaker and resets
`failure_count` to 0 before the probe.  A successful probe therefore leaves
the count at 0 with the breaker closed, while a failed probe leaves the
breaker CLOSED with `failure_count = 1`: it re-opens only if the threshold
is ≤ 1 (registered providers always have threshold 3). -/
theorem breaker_cooloff_amended (rs : RouterState) (now now2 : ℚ) (name : String)
    (cfg : ProviderConfig) (model : Option String) (priv : Bool)
    (hmem : (name, cfg) ∈ rs.providers)
    (huniq : ∀ c, (name, c) ∈ rs.providers → c = cfg)
    (hopen : (getBreaker rs name).is_open = true)
    (hmodel : modelOkB model cfg = true)
    (hpriv : (priv && !cfg.privacy_compatible) = false) :
    (¬(now - (getBreaker rs name).last_failure_time ≥ cfg.circuit_breaker_timeout) →
      ∀ t2 m2 p2, name ∉ (get_candidates rs now t2 m2 p2).2) ∧
    (now - (getBreaker rs name).last_failure_time ≥ cfg.circuit_breaker_timeout →
      name ∈ (get_candidates rs now cfg.tier model priv).2 ∧
      getBreaker (get_candidates rs now cfg.tier model priv).1 name =
        { getBreaker rs name with is_open := false, failure_count := 0 } ∧
      ((getBreaker (record_success (get_candidates rs now cfg.tier model priv).1 name)
          name).failure_count = 0 ∧
        (getBreaker (record_success (get_candidates rs now cfg.tier model priv).1 name)
          name).is_open = false) ∧
      ((getBreaker (record_failure (get_candidates rs now cfg.tier model priv).1 name
          now2) name).failure_count = 1 ∧
        (getBreaker (record_failure (get_candidates rs now cfg.tier model priv).1 name
          now2) name).is_open = decide (cfg.circuit_breaker_threshold ≤ 1))) := by
  constructor
  · intro hcool t2 m2 p2 hmemc
    have h := candFold_keeps_blocked now t2 m2 p2 name cfg (getBreaker rs name) hopen
      hcool rs.providers huniq rs [] rfl (by simp)
    simp only [get_candidates, List.mem_map] at hmemc
    obtain ⟨y, hy, hyname⟩ := hmemc
    rw [mem_sortByPriority] at hy
    exact h.2 (List.mem_map.mpr ⟨y, hy, hyname⟩)
  · intro hcool
    obtain ⟨hbRfold, hmemfold⟩ := candFold_reopens now model priv name cfg
      (getBreaker rs name) hopen hcool hmodel hpriv rs.providers huniq hmem rs [] rfl
    have hbR : getBreaker (get_candidates rs now cfg.tier model priv).1 name =
        { getBreaker rs name with is_open := false, failure_count := 0 } := hbRfold
    have hmemc : name ∈ (get_candidates rs now cfg.tier model priv).2 := by
      simp only [get_candidates, List.mem_map]
      simp only [List.mem_map] at hmemfold
      obtain ⟨y, hy, hyname⟩ := hmemfold
      exact ⟨y, (mem_sortByPriority y _).mpr hy, hyname⟩
    have hprov : (get_candidates rs now cfg.tier model priv).1.providers =
        rs.providers := candFold_providers now cfg.tier model priv rs.providers (rs, [])
    have hlook : lookupB (get_candidates rs now cfg.tier model priv).1.providers name =
        some cfg := by
      rw [hprov]
      exact lookupB_eq_of_mem_uniq rs.providers name cfg hmem huniq
    refine ⟨hmemc, hbR, ?_, ?_⟩
    · constructor <;> simp [record_success, getBreaker_setBreaker_self, hbR]
    · have hrf : getBreaker (record_failure
          (get_candidates rs now cfg.tier model priv).1 name now2) name =
          (if 0 + 1 ≥ cfg.circuit_breaker_threshold then
            { getBreaker rs name with
              is_open := true
              failure_count := 0 + 1
              last_failure_time := now2 }
          else
            { getBreaker rs name with
              is_open := false
              failure_count := 0 + 1
              last_failure_time := now2 }) := by
        simp only [record_failure, hlook, hbR]
        split_ifs with hth
        · rw [getBreaker_setBreaker_self]
        · rw [getBreaker_setBreaker_self]
      rw [hrf]
      by_cases hth : cfg.circuit_breaker_threshold ≤ 1
      · rw [if_pos (by omega)]
        simp [hth]
      · rw [if_neg (by omega)]
        simp [hth]

end Spec2Proof

namespace Spec2Proof

/-- Provider used by the circuit-breaker counterexample and witnesses;
threshold and cool-off keep the dataclass defaults 3 and 30 s, as
`register` always does. -/
def cexCfg : ProviderConfig :=
  { tier := .LOCAL_FREE
    priority := 0
    models := ["m"]
    privacy_compatible := false }

def cexRouter0 : RouterState :=
  { providers := [("p", cexCfg)], circuit_breakers := [("p", {})] }

/-- The router after three consecutive failures of provider p at time 0:
its breaker is open. -/
def cexRouter3 : RouterState :=
  record_failure (record_failure (record_failure cexRouter0 ("p") 0) ("p") 0) ("p") 0

/-- C2 counterexample: after the breaker opened (3 failures at time 0) and
the 30 s cool-off elapsed (now = 31), the provider is offered again — but
`_get_candidates` has already closed the breaker and reset the count, so
when the permitted probe FAILS the breaker is left closed with count 1,
where the claim requires it to stay open. -/
theorem breaker_probe_failure_cex :
    (getBreaker cexRouter3 ("p")).is_open = true ∧
    (getBreaker cexRouter3 ("p")).failure_count = 3 ∧
    (get_candidates cexRouter3 31 .LOCAL_FREE (some "m") false).2 = ["p"] ∧
    (getBreaker (record_failure (get_candidates cexRouter3 31 .LOCAL_FREE (some "m")
      false).1 ("p") 31) ("p")).is_open = false ∧
    (getBreaker (record_failure (get_candidates cexRouter3 31 .LOCAL_FREE (some "m")
      false).1 ("p") 31) ("p")).failure_count = 1 := by
  have h3 : cexRouter3 =
      ⟨[("p", cexCfg)], [("p", ⟨3, 0, true, 0, true⟩)]⟩ := by decide
  have hgc : get_candidates cexRouter3 31 Tier.LOCAL_FREE (some "m") false =
      (⟨[("p", cexCfg)], [("p", ⟨0, 0, false, 0, true⟩)]⟩, ["p"]) := by
    rw [h3]
    norm_num [get_candidates, candStep, getBreaker, lookupB, cexCfg, modelOkB,
      setBreaker, setB, sortByPriority, insertByPriority]
  refine ⟨by rw [h3]; decide, by rw [h3]; decide, by rw [hgc], ?_, ?_⟩
  · rw [hgc]
    decide
  · rw [hgc]
    decide

/-- Witness for the amended C2 on the same scenario: at now = 31 the
provider is a candidate again, and after a failed probe the breaker's open
flag equals `decide (threshold ≤ 1)` — false for the default threshold 3. -/
theorem breaker_cooloff_amended_witness :
    ("p") ∈ (get_candidates cexRouter3 31 Tier.LOCAL_FREE (some "m") false).2 ∧
    (getBreaker (record_failure (get_candidates cexRouter3 31 Tier.LOCAL_FREE (some "m")
      false).1 ("p") 31) ("p")).is_open =
      decide (cexCfg.circuit_breaker_threshold ≤ 1) := by
  have hprov : cexRouter3.providers = [("p", cexCfg)] := by decide
  have hbr : getBreaker cexRouter3 ("p") =
      { failure_count := 3, last_failure_time := 0, is_open := true,
        last_health_check := 0, is_healthy := true } := by decide
  have h := breaker_cooloff_amended cexRouter3 31 31 ("p") cexCfg (some "m") false
    (by rw [hprov]; exact List.mem_cons_self _ _)
    (by intro c hc; rw [hprov] at hc; simp at hc; exact hc)
    (by rw [hbr])
    (by decide) (by decide)
  have hcool : (31 : ℚ) - (getBreaker cexRouter3 ("p")).last_failure_time ≥
      cexCfg.circuit_breaker_timeout := by
    rw [hbr]
    norm_num [cexCfg]
  obtain ⟨hmemc, _, _, _, hflag⟩ := h.2 hcool
  exact ⟨hmemc, hflag⟩

end Spec2Proof

namespace Spec2Proof

/-- When every provider attempt fails, the candidate loop returns no
success and its remembered last error is the error of the last attempt in
its trace. -/
theorem tryCandidates_fail (health : String → Bool)
    (attempt : String → Except String ℕ) (now : ℚ) (t : Tier)
    (hall : ∀ n, ∃ e, attempt n = Except.error e) :
    ∀ (names : List String) (rs : RouterState) (le : Option String)
      (tr : List (Tier × String × String)),
      le = (tr.map fun a => a.2.2).getLast? →
      (tryCandidates health attempt now t names rs le tr).2.2.2 = none ∧
      (tryCandidates health attempt now t names rs le tr).2.1 =
        (((tryCandidates health attempt now t names rs le tr).2.2.1).map
          fun a => a.2.2).getLast? := by
  intro names
  induction names with
  | nil =>
    intro rs le tr hinv
    exact ⟨rfl, hinv⟩
  | cons n rest ih =>
    intro rs le tr hinv
    by_cases hh : health n
    · obtain ⟨e, he⟩ := hall n
      simp only [tryCandidates, hh, if_true, he]
      apply ih
      simp [List.getLast?_concat]
    · simp only [tryCandidates, hh, if_false]
      exact ih rs le tr hinv

/-- Tier-loop analogue of `tryCandidates_fail`. -/
theorem tryTiers_fail (health : String → Bool) (attempt : String → Except String ℕ)
    (now : ℚ) (model : String) (priv : Bool)
    (hall : ∀ n, ∃ e, attempt n = Except.error e) :
    ∀ (tiers : List Tier) (rs : RouterState) (le : Option String)
      (tr : List (Tier × String × String)),
      le = (tr.map fun a => a.2.2).getLast? →
      (tryTiers health attempt now model priv tiers rs le tr).2.2.2 = none ∧
      (tryTiers health attempt now model priv tiers rs le tr).2.1 =
        (((tryTiers health attempt now model priv tiers rs le tr).2.2.1).map
          fun a => a.2.2).getLast? := by
  intro tiers
  induction tiers with
  | nil =>
    intro rs le tr hinv
    exact ⟨rfl, hinv⟩
  | cons t rest ih =>
    intro rs le tr hinv
    have hc := tryCandidates_fail health attempt now t hall
      (get_candidates rs now t (some model) priv).2
      (get_candidates rs now t (some model) priv).1 le tr hinv
    simp only [tryTiers, hc.1]
    exact ih _ _ _ hc.2

/-- C3: With failover enabled the tiers attempted are exactly, in order, the
requested tier, the next-higher tier when the requested one is below
PREMIUM, then PREMIUM with the duplicate removed; and when every candidate
on every tier fails, `chat_completion` raises "all providers failed"
carrying the last provider error of its attempt trace. -/
theorem chat_completion_tier_chain (rs : RouterState) (now : ℚ)
    (health : String → Bool) (attempt : String → Except String ℕ)
    (t : Tier) (model : String) (priv : Bool)
    (hall : ∀ n, ∃ e, attempt n = Except.error e) :
    tiersToTry t true = specTierChain t ∧
    (chat_completion rs now health attempt t model priv true).2.2 =
      ChatOutcome.allFailed
        ((((chat_completion rs now health attempt t model priv true).2.1).map
          fun a => a.2.2).getLast?) := by
  constructor
  · cases t <;> decide
  · have h := tryTiers_fail health attempt now model priv hall
      (tiersToTry t true) rs none [] (by simp)
    simp only [chat_completion, h.1]
    rw [h.2]

/-- Witness for C3: a single registered LOCAL_FREE provider whose attempts
always raise "boom"; the chain for LOCAL_FREE is
[LOCAL_FREE, CLOUD_CHEAP, PREMIUM] and the call fails with the last error. -/
theorem chat_completion_tier_chain_witness :
    tiersToTry Tier.LOCAL_FREE true = specTierChain Tier.LOCAL_FREE ∧
    (chat_completion cexRouter0 0 (fun _ => true) (fun _ => Except.error "boom")
      Tier.LOCAL_FREE ("m") false true).2.2 = ChatOutcome.allFailed (some "boom") := by
  have h := chat_completion_tier_chain cexRouter0 0 (fun _ => true)
    (fun _ => Except.error "boom") Tier.LOCAL_FREE ("m") false
    (fun _ => ⟨"boom", rfl⟩)
  refine ⟨h.1, ?_⟩
  rw [h.2]
  decide

end Spec2Proof

namespace Spec2Proof

/-- Router for the streaming-failover scenario: p1 (priority 0) yields one
chunk then errors, p2 (priority 1) streams to completion. -/
def cexStreamRouter : RouterState :=
  { providers := [("p1", cexCfg), ("p2", { cexCfg with priority := 1 })]
    circuit_breakers := [("p1", {}), ("p2", {})] }

def streamOfS : String → List String × Option String :=
  fun n => if n = "p1" then (["x"], some "boom") else (["y"], none)

/-- C8 counterexample: provider p1 yields the chunk "x" and then fails.
The claim requires the failure to surface with no further provider once a
chunk was delivered, but the source catches the error and continues with
p2: the caller receives ["x", "y"] and the call completes successfully. -/
theorem stream_failover_restart_cex :
    streamOfS ("p1") = (["x"], some "boom") ∧
    (stream_completion cexStreamRouter 0 (fun _ => true) streamOfS Tier.LOCAL_FREE
      ("m") false).emitted = ["x", "y"] ∧
    (stream_completion cexStreamRouter 0 (fun _ => true) streamOfS Tier.LOCAL_FREE
      ("m") false).completed = true := by
  refine ⟨rfl, ?_, ?_⟩ <;> decide

/-- The candidate loop of `stream_completion` forwards each attempted
provider's chunks and stops at the first healthy candidate that completes. -/
theorem tryStream_spec (streamOf : String → List String × Option String)
    (health : String → Bool) (now : ℚ) :
    ∀ (names : List String) (rs : RouterState),
      (tryStream streamOf health now names rs).2.1 =
        chunksUntilComplete streamOf (names.filter fun n => health n) ∧
      (tryStream streamOf health now names rs).2.2 =
        ((names.filter fun n => health n).any fun n => ((streamOf n).2).isNone) := by
  intro names
  induction names with
  | nil =>
    intro rs
    exact ⟨rfl, rfl⟩
  | cons n rest ih =>
    intro rs
    by_cases hh : health n
    · cases hso : (streamOf n).2 with
      | none =>
        simp [tryStream, hh, hso, chunksUntilComplete, List.filter_cons]
      | some e =>
        have hr := ih (record_failure rs n now)
        simp [tryStream, hh, hso, chunksUntilComplete, List.filter_cons, hr.1, hr.2]
    · simp only [tryStream, hh, if_false, List.filter_cons, Bool.false_eq_true,
        ite_false]
      exact ih rs

/-- C8 amended: when the current provider errors — before or after yielding
chunks — `stream_completion` always proceeds to the next healthy candidate,
appending its chunks to those already delivered to the caller; the call
completes iff some healthy candidate's stream runs to completion, and the
"all providers failed" error is raised only when every candidate is
exhausted. -/
theorem stream_failover_amended (rs : RouterState) (now : ℚ)
    (health : String → Bool) (streamOf : String → List String × Option String)
    (tier : Tier) (model : String) (priv : Bool)
    (hne : (get_candidates rs now tier (some model) priv).2 ≠ []) :
    (stream_completion rs now health streamOf tier model priv).emitted =
      chunksUntilComplete streamOf
        ((get_candidates rs now tier (some model) priv).2.filter fun n => health n) ∧
    (stream_completion rs now health streamOf tier model priv).completed =
      (((get_candidates rs now tier (some model) priv).2.filter
        fun n => health n).any fun n => ((streamOf n).2).isNone) ∧
    (stream_completion rs now health streamOf tier model priv).noCandidates = false := by
  have h := tryStream_spec streamOf health now
    (get_candidates rs now tier (some model) priv).2
    (get_candidates rs now tier (some model) priv).1
  simp only [stream_completion, if_neg hne]
  exact ⟨h.1, h.2, trivial⟩

/-- Witness for the amended C8 on the counterexample router: the emitted
chunks are p1's chunk followed by p2's, and the call completes. -/
theorem stream_failover_amended_witness :
    (stream_completion cexStreamRouter 0 (fun _ => true) streamOfS Tier.LOCAL_FREE
      ("m") false).emitted =
      chunksUntilComplete streamOfS
        ((get_candidates cexStreamRouter 0 Tier.LOCAL_FREE (some "m") false).2.filter
          fun _ => true) ∧
    (stream_completion cexStreamRouter 0 (fun _ => true) streamOfS Tier.LOCAL_FREE
      ("m") false).noCandidates = false := by
  have h := stream_failover_amended cexStreamRouter 0 (fun _ => true) streamOfS
    Tier.LOCAL_FREE ("m") false (by decide)
  exact ⟨h.1, h.2.2⟩

end Spec2Proof
